import Mathlib

/-!
Verification of the Songolo storage/ledger subsystem (`songolo/songs.py`,
`songolo/utils.py`).

The development shallowly embeds the parts of the program the claims are
about:

* the JSON codec carried in commit messages (Python's `json.dumps` /
  `json.loads` restricted to the value forms the program exchanges:
  objects, arrays, strings, integers, booleans and `null`; floats are not
  modelled, no commit message of the program contains one);
* the commit-message conventions of `Library.first_commit`,
  `Library.cleanse_master` and `Song.commit_file`;
* the history scan of `Library.commit_data_history` / `Library.get_song`;
* `MetaData.dict`, `MetaData.snowflake`, `Song.branch`, `Song.filename`;
* the `Base64` wrapper and `sha256_snowflake` from `songolo/utils.py`;
* the working-tree effect of `Library.cleanse_master`.

Python strings are modelled as Lean `String` / `List Char`, bytes as
`List Nat` (each element < 256), raised exceptions as `Except`/explicit
outcome constructors.
-/

/-! ## JSON values

Mutual inductive so that every recursion below is structural (and hence
kernel-reducible).  `JObj` is an ordered association list, matching the
insertion order of Python dicts; the program never produces duplicate
keys.
-/

mutual

inductive Json where
  | null : Json
  | bool (b : Bool) : Json
  | num (n : Int) : Json
  | str (s : String) : Json
  | arr (xs : JArr) : Json
  | obj (ps : JObj) : Json

inductive JArr where
  | nil : JArr
  | cons (hd : Json) (tl : JArr) : JArr

inductive JObj where
  | nil : JObj
  | cons (key : String) (val : Json) (tl : JObj) : JObj

end

namespace JObj

def length : JObj → Nat
  | .nil => 0
  | .cons _ _ tl => 1 + tl.length

def toList : JObj → List (String × Json)
  | .nil => []
  | .cons k v tl => (k, v) :: tl.toList

/-- Python `dict.get(key)`, returning the first binding (the program never
produces duplicate keys). -/
def lookup (k : String) : JObj → Option Json
  | .nil => none
  | .cons k' v tl => if k' = k then some v else lookup k tl

end JObj

/-! ## Serialization: `json.dumps`

Python's `json.dumps` with its defaults: `ensure_ascii=True` (every
character outside `0x20`–`0x7e` is `\uXXXX`-escaped, astral characters as
surrogate pairs), item separator `", "`, key separator `": "`. -/

/-- Lower-case hex digit, as produced by Python's `'%04x'` formatting. -/
def hexDigCh (d : Nat) : Char := Nat.digitChar (d % 16)

/-- Four-digit lower-case hex rendering of `n < 0x10000`. -/
def hex4 (n : Nat) : List Char :=
  [hexDigCh (n / 4096), hexDigCh (n / 256), hexDigCh (n / 16), hexDigCh n]

/-- Escaping of one character inside a JSON string literal, following
`json.encoder.py_encode_basestring_ascii`. -/
def escapeChar (c : Char) : List Char :=
  if c = '"' then ['\\', '"']
  else if c = '\\' then ['\\', '\\']
  else if c = '\x08' then ['\\', 'b']
  else if c = '\x09' then ['\\', 't']
  else if c = '\x0a' then ['\\', 'n']
  else if c = '\x0c' then ['\\', 'f']
  else if c = '\x0d' then ['\\', 'r']
  else if c.toNat < 0x20 then '\\' :: 'u' :: hex4 c.toNat
  else if c.toNat < 0x7f then [c]
  else if c.toNat < 0x10000 then '\\' :: 'u' :: hex4 c.toNat
  else
    '\\' :: 'u' :: hex4 (0xd800 + (c.toNat - 0x10000) / 0x400) ++
      ('\\' :: 'u' :: hex4 (0xdc00 + (c.toNat - 0x10000) % 0x400))

def escapeList : List Char → List Char
  | [] => []
  | c :: cs => escapeChar c ++ escapeList cs

/-- Rendering of a JSON string literal, quotes included. -/
def strChars (s : String) : List Char := '"' :: escapeList s.data ++ ['"']

def intChars (n : Int) : List Char := (toString n).data

mutual

/-- Characters of `json.dumps` for a value. -/
def dumpsVal : Json → List Char
  | .null => "null".data
  | .bool true => "true".data
  | .bool false => "false".data
  | .num n => intChars n
  | .str s => strChars s
  | .arr .nil => ['[', ']']
  | .arr (.cons x tl) => '[' :: (dumpsVal x ++ arrRest tl) ++ [']']
  | .obj .nil => ['{', '}']
  | .obj (.cons k v tl) =>
      '{' :: ((strChars k ++ ':' :: ' ' :: dumpsVal v) ++ objRest tl) ++ ['}']
termination_by structural v => v

def arrRest : JArr → List Char
  | .nil => []
  | .cons x tl => ',' :: ' ' :: (dumpsVal x ++ arrRest tl)
termination_by structural xs => xs

def objRest : JObj → List Char
  | .nil => []
  | .cons k v tl => ',' :: ' ' :: ((strChars k ++ ':' :: ' ' :: dumpsVal v) ++ objRest tl)
termination_by structural ps => ps

end

/-- Rendering of one `"key": value` object member. -/
def kvChars (k : String) (v : Json) : List Char :=
  strChars k ++ ':' :: ' ' :: dumpsVal v

def dumps (v : Json) : String := String.mk (dumpsVal v)

/-! ## Parsing: `json.loads`

A recursive-descent parser for the JSON subset above, modelling
`json.loads` (strict mode: unescaped control characters inside strings
are rejected, only the standard escapes are accepted, surrogate pairs
are combined).  Every recursion is fuelled so that the functions are
structural and kernel-reducible; fuel is always instantiated with the
length of the input, which each step strictly consumes. -/

def jsonWs (c : Char) : Bool := c = ' ' || c = '\t' || c = '\n' || c = '\r'

/-- Structural prefix test on character lists (Python `startswith`). -/
def isPre (pat s : List Char) : Bool :=
  match pat, s with
  | [], _ => true
  | q :: qs, c :: cs => q == c && isPre qs cs
  | _ :: _, [] => false

def skipWs (cs : List Char) : List Char := cs.dropWhile jsonWs

def hexVal (c : Char) : Option Nat :=
  if '0' ≤ c ∧ c ≤ '9' then some (c.toNat - 48)
  else if 'a' ≤ c ∧ c ≤ 'f' then some (c.toNat - 87)
  else if 'A' ≤ c ∧ c ≤ 'F' then some (c.toNat - 55)
  else none

def hex4Val (a b c d : Char) : Option Nat :=
  match hexVal a, hexVal b, hexVal c, hexVal d with
  | some x, some y, some z, some w => some (x * 4096 + y * 256 + z * 16 + w)
  | _, _, _, _ => none

/-- The short backslash escapes accepted by `json.loads`. -/
def escMap (c : Char) : Option Char :=
  if c = '"' then some '"'
  else if c = '\\' then some '\\'
  else if c = '/' then some '/'
  else if c = 'b' then some '\x08'
  else if c = 'f' then some '\x0c'
  else if c = 'n' then some '\x0a'
  else if c = 'r' then some '\x0d'
  else if c = 't' then some '\x09'
  else none

/-- Body of a JSON string literal (after the opening quote); returns the
decoded characters and the input after the closing quote.  A lone
surrogate escape is not representable as a Lean `Char` and is rejected
(`json.dumps` output never contains one). -/
def parseStrBody : Nat → List Char → Option (List Char × List Char)
  | 0, _ => none
  | _ + 1, [] => none
  | fuel + 1, c :: rest =>
    if c = '"' then some ([], rest)
    else if c = '\\' then
      match rest with
      | 'u' :: a :: b :: c2 :: d :: rest2 =>
        match hex4Val a b c2 d with
        | none => none
        | some n =>
          if 0xd800 ≤ n ∧ n < 0xdc00 then
            match rest2 with
            | '\\' :: 'u' :: e :: f :: g :: h :: rest3 =>
              match hex4Val e f g h with
              | some m =>
                if 0xdc00 ≤ m ∧ m < 0xe000 then
                  (parseStrBody fuel rest3).map
                    (fun p => (Char.ofNat ((n - 0xd800) * 1024 + (m - 0xdc00) + 0x10000) :: p.1, p.2))
                else none
              | none => none
            | _ => none
          else if 0xdc00 ≤ n ∧ n < 0xe000 then none
          else (parseStrBody fuel rest2).map (fun p => (Char.ofNat n :: p.1, p.2))
      | e :: rest2 =>
        match escMap e with
        | some ec => (parseStrBody fuel rest2).map (fun p => (ec :: p.1, p.2))
        | none => none
      | [] => none
    else if c.toNat < 0x20 then none
    else (parseStrBody fuel rest).map (fun p => (c :: p.1, p.2))

/-- Integer literal: optional minus, digits, no leading zero, and no
float/exponent continuation (floats are outside the modelled subset). -/
def parseIntLit (cs : List Char) : Option (Json × List Char) :=
  let core : List Char → Option (Int × List Char) := fun ds =>
    let digits := ds.takeWhile Char.isDigit
    let rest := ds.dropWhile Char.isDigit
    match digits, rest with
    | [], _ => none
    | '0' :: _ :: _, _ => none
    | _, '.' :: _ => none
    | _, 'e' :: _ => none
    | _, 'E' :: _ => none
    | _, _ =>
      some ((digits.foldl (fun acc d => acc * 10 + (d.toNat - 48)) 0 : Nat), rest)
  match cs with
  | '-' :: ds => (core ds).map (fun p => (Json.num (-p.1), p.2))
  | ds => (core ds).map (fun p => (Json.num p.1, p.2))

def parseLit (lit : List Char) (cs : List Char) : Option (List Char) :=
  if isPre lit cs then some (cs.drop lit.length) else none

mutual

def parseValue : Nat → List Char → Option (Json × List Char)
  | 0, _ => none
  | fuel + 1, cs =>
    match skipWs cs with
    | [] => none
    | c :: rest =>
      if c = '"' then
        (parseStrBody rest.length rest).map (fun p => (Json.str (String.mk p.1), p.2))
      else if c = '{' then
        match skipWs rest with
        | '}' :: rest2 => some (Json.obj .nil, rest2)
        | _ => (parseMembers fuel rest).map (fun p => (Json.obj p.1, p.2))
      else if c = '[' then
        match skipWs rest with
        | ']' :: rest2 => some (Json.arr .nil, rest2)
        | _ => (parseElems fuel rest).map (fun p => (Json.arr p.1, p.2))
      else if c = 't' then (parseLit "rue".data rest).map (fun r => (Json.bool true, r))
      else if c = 'f' then (parseLit "alse".data rest).map (fun r => (Json.bool false, r))
      else if c = 'n' then (parseLit "ull".data rest).map (fun r => (Json.null, r))
      else if c = '-' || c.isDigit then parseIntLit (c :: rest)
      else none

def parseMembers : Nat → List Char → Option (JObj × List Char)
  | 0, _ => none
  | fuel + 1, cs =>
    match skipWs cs with
    | '"' :: rest =>
      match parseStrBody rest.length rest with
      | none => none
      | some (key, rest2) =>
        match skipWs rest2 with
        | ':' :: rest3 =>
          match parseValue fuel rest3 with
          | none => none
          | some (v, rest4) =>
            match skipWs rest4 with
            | ',' :: rest5 =>
              (parseMembers fuel rest5).map
                (fun p => (JObj.cons (String.mk key) v p.1, p.2))
            | '}' :: rest5 => some (JObj.cons (String.mk key) v .nil, rest5)
            | _ => none
        | _ => none
    | _ => none

def parseElems : Nat → List Char → Option (JArr × List Char)
  | 0, _ => none
  | fuel + 1, cs =>
    match parseValue fuel cs with
    | none => none
    | some (v, rest) =>
      match skipWs rest with
      | ',' :: rest2 => (parseElems fuel rest2).map (fun p => (JArr.cons v p.1, p.2))
      | ']' :: rest2 => some (JArr.cons v .nil, rest2)
      | _ => none

end

/-- Model of `json.loads`: parse one value, then require only trailing
whitespace.  The fuel `s.length + 1` always suffices, since every level
of nesting strictly consumes input. -/
def loads (s : String) : Option Json :=
  match parseValue (s.data.length + 1) s.data with
  | some (v, rest) => if skipWs rest = [] then some v else none
  | none => none

/-! ## Library commit-message conventions

`Library` hard-codes `prefix = "[Songolo] "` and
`initial_branch = "master"`.  Messages are built exactly as the three
committing code paths build them (`first_commit`, `cleanse_master`,
`Song.commit_file`). -/

def songoloTag : String := "[Songolo] "

def initialBranch : String := "master"

/-- Python `message.replace(pat, "", 1)`: remove the first occurrence of
`pat`, scanning left to right; unchanged if `pat` does not occur. -/
def pyRemoveFirst (pat : List Char) : List Char → List Char
  | [] => []
  | c :: rest =>
    if isPre pat (c :: rest) then (c :: rest).drop pat.length
    else c :: pyRemoveFirst pat rest

def startsTag (msg : String) : Bool := isPre songoloTag.data msg.data

def stripTag (msg : String) : String := String.mk (pyRemoveFirst songoloTag.data msg.data)

/-- Per-commit behaviour of `Library.commit_data_history`: a message
without the prefix is silently skipped; one with the prefix is fed to
`json.loads`, which raises `json.JSONDecodeError` on invalid input (the
code has no `try`), and otherwise the parsed data is yielded. -/
inductive DecodeOutcome where
  | skipped : DecodeOutcome
  | raised : DecodeOutcome
  | ok (data : Json) : DecodeOutcome

def decodeStep (msg : String) : DecodeOutcome :=
  if startsTag msg then
    match loads (stripTag msg) with
    | none => .raised
    | some j => .ok j
  else .skipped

/-! ## `MetaData` and its serialized projection -/

/-- The `MetaData` pydantic model: `artist`/`title` required strings, five
optional string fields defaulting to `None`, and an `extras` string
dict. -/
structure MetaData where
  artist : String
  title : String
  album : Option String := none
  album_artist : Option String := none
  genre : Option String := none
  year : Option String := none
  composer : Option String := none
  extras : List (String × String) := []

def optJson : Option String → Json
  | none => .null
  | some s => .str s

def strPairsObj : List (String × String) → JObj
  | [] => .nil
  | (k, v) :: tl => .cons k (.str v) (strPairsObj tl)

/-- Model of `pydantic.BaseModel.dict()` for `MetaData`: every field, in
declaration order, `None` rendered as `null`. -/
def baseDict (m : MetaData) : JObj :=
  .cons "artist" (.str m.artist) <| .cons "title" (.str m.title) <|
    .cons "album" (optJson m.album) <| .cons "album_artist" (optJson m.album_artist) <|
    .cons "genre" (optJson m.genre) <| .cons "year" (optJson m.year) <|
    .cons "composer" (optJson m.composer) <|
    .cons "extras" (.obj (strPairsObj m.extras)) .nil

/-- Python truthiness `bool(x)` on the JSON values that can appear in a
`BaseModel.dict()` output. -/
def truthy : Json → Bool
  | .null => false
  | .bool b => b
  | .num n => n != 0
  | .str s => s != ""
  | .arr .nil => false
  | .arr (.cons _ _) => true
  | .obj .nil => false
  | .obj (.cons _ _ _) => true

def filterTruthy : JObj → JObj
  | .nil => .nil
  | .cons k v tl => if truthy v then .cons k v (filterTruthy tl) else filterTruthy tl

namespace MetaData

/-- Model of `MetaData.dict`: `super().dict()` filtered to its truthy items. -/
def dict (m : MetaData) : JObj := filterTruthy (baseDict m)

/-- Model of `MetaData.snowflake`: `extras.get("snowflake")`, raising `ValueError`
when absent. -/
def snowflake (m : MetaData) : Except String String :=
  match m.extras.lookup "snowflake" with
  | none => .error "Invalid song! Song does not have a snowflake."
  | some s => .ok s

end MetaData

namespace Song

/-- Model of `Song.branch`: `f"song/{self.meta.snowflake}"`; the `ValueError` from
a missing snowflake propagates. -/
def branch (m : MetaData) : Except String String :=
  (MetaData.snowflake m).map (fun s => "song/" ++ s)

/-- Model of `Song.filename`: `f"{self.meta.snowflake}.mp3"`. -/
def filename (m : MetaData) : Except String String :=
  (MetaData.snowflake m).map (fun s => s ++ ".mp3")

end Song

/-! ## The three commit messages the program writes -/

/-- JSON of `Library.first_commit`'s message: note the key is `"job"`,
not `"entry"`. -/
def initEntryJson : Json :=
  .obj (.cons "job" (.str "init") (.cons "details" (.obj .nil) .nil))

def initMessage : String := songoloTag ++ dumps initEntryJson

def cleanseEntryJson : Json :=
  .obj (.cons "entry" (.str "cleanse") (.cons "details" (.obj .nil) .nil))

def cleanseMessage : String := songoloTag ++ dumps cleanseEntryJson

/-- JSON of `Song.commit_file`'s message:
`{"entry": "song", "details": self.meta.dict()}`. -/
def songEntryJson (m : MetaData) : Json :=
  .obj (.cons "entry" (.str "song") (.cons "details" (.obj m.dict) .nil))

def songCommitMessage (m : MetaData) : String := songoloTag ++ dumps (songEntryJson m)

/-! ## `Library.get_song`

The master history is modelled as the list of commit messages, oldest
first (`iter_commits(..., reverse=True)`). -/

def jGet (j : Json) (k : String) : Option Json :=
  match j with
  | .obj ps => ps.lookup k
  | _ => none

/-- Python `x == "s"` where `x` is a `dict.get` result (`None` compares
unequal to every string). -/
def isStrEq (o : Option Json) (s : String) : Bool :=
  match o with
  | some (.str t) => t = s
  | _ => false

/-- Model of `Library.get_song`: scan the decoded history for an `"import"` entry
whose `details["snowflake"]` equals the requested snowflake; return the
first match's details (from which the `Song` is rebuilt), `None` when
the scan finds nothing.  A `json.loads` failure propagates as an
exception. -/
def get_song : List String → String → Except String (Option Json)
  | [], _ => .ok none
  | msg :: rest, target =>
    match decodeStep msg with
    | .skipped => get_song rest target
    | .raised => .error "json.decoder.JSONDecodeError"
    | .ok data =>
      if isStrEq (jGet data "entry") "import" then
        if isStrEq (match jGet data "details" with
                    | some d => jGet d "snowflake"
                    | none => none) target then
          .ok (some (match jGet data "details" with
                     | some d => d
                     | none => Json.obj .nil))
        else get_song rest target
      else get_song rest target

/-! ## Working-tree state and `Library.cleanse_master`

`tree` holds the file paths under the library root `.songolo/`
(relative, e.g. `"songs/README.md"`); the git repository's worktree is
the `songs/` subdirectory (`Repo.init(self.storagepath)`), so a stored
song lives at `"songs/<snowflake>.mp3"`.  `masterHistory` is the list of
master-branch commit messages, oldest first. -/

structure LibState where
  tree : List String
  masterHistory : List String
deriving DecidableEq

/-- Matches `self.path.glob("*.mp3")`: direct children of the library
root (no `/` in the relative path) with the `.mp3` suffix. -/
def isRootMp3 (p : String) : Bool :=
  !p.data.contains '/' && isPre ".mp3".data.reverse p.data.reverse

/-- Model of `Library.cleanse_master`: checkout master, `git rm` every glob match
of `*.mp3` under `self.path`, and commit the cleanse entry
(`index.commit` records a commit even when nothing changed). -/
def cleanse_master (s : LibState) : LibState :=
  { tree := s.tree.filter (fun p => !isRootMp3 p),
    masterHistory := s.masterHistory ++ [cleanseMessage] }

/-! ## `songolo.utils.Base64`

`altchars = b"+="`: `base64.b64encode(content, altchars)` translates the
standard alphabet's `+/` to `+=` after encoding, and
`base64.b64decode(content, altchars)` translates `+=` back to `+/`
before decoding — including every padding `=`.  Bytes are `List Nat`. -/

namespace Base64

def stdChar (n : Nat) : Char :=
  if n < 26 then Char.ofNat (65 + n)
  else if n < 52 then Char.ofNat (97 + (n - 26))
  else if n < 62 then Char.ofNat (48 + (n - 52))
  else if n = 62 then '+'
  else '/'

/-- Standard `base64.b64encode`, with `=` padding. -/
def encodeStd : List Nat → List Char
  | [] => []
  | [a] => [stdChar (a / 4), stdChar (a % 4 * 16), '=', '=']
  | [a, b] => [stdChar (a / 4), stdChar (a % 4 * 16 + b / 16), stdChar (b % 16 * 4), '=']
  | a :: b :: c :: rest =>
    stdChar (a / 4) :: stdChar (a % 4 * 16 + b / 16) ::
      stdChar (b % 16 * 4 + c / 64) :: stdChar (c % 64) :: encodeStd rest

/-- Translation `bytes.translate(maketrans(b"+/", b"+="))` applied after encoding. -/
def encTranslate (c : Char) : Char := if c = '/' then '=' else c

/-- Model of `Base64.encode`. -/
def encode (content : List Nat) : List Char := (encodeStd content).map encTranslate

/-- Translation `bytes.translate(maketrans(b"+=", b"+/"))` applied before decoding:
every `=` — the padding character included — becomes `/`. -/
def decTranslate (c : Char) : Char := if c = '=' then '/' else c

def stdVal (c : Char) : Option Nat :=
  if 'A' ≤ c ∧ c ≤ 'Z' then some (c.toNat - 65)
  else if 'a' ≤ c ∧ c ≤ 'z' then some (c.toNat - 97 + 26)
  else if '0' ≤ c ∧ c ≤ '9' then some (c.toNat - 48 + 52)
  else if c = '+' then some 62
  else if c = '/' then some 63
  else none

/-- Bit accumulator of `binascii.a2b_base64`: fold 6-bit groups, emit a
byte whenever 8 bits are available. -/
def bitsToBytes : List Nat → Nat → Nat → List Nat
  | [], _, _ => []
  | v :: rest, buf, nbits =>
    let buf' := buf * 64 + v
    let nbits' := nbits + 6
    if 8 ≤ nbits' then
      buf' / 2 ^ (nbits' - 8) :: bitsToBytes rest (buf' % 2 ^ (nbits' - 8)) (nbits' - 8)
    else bitsToBytes rest buf' nbits'

/-- Model of `binascii.a2b_base64` in its default lenient mode: characters outside
the standard alphabet are ignored.  (The program only ever feeds it
translated `encode` output, which contains no `=` and no foreign
characters.) -/
def a2b (cs : List Char) : List Nat := bitsToBytes (cs.filterMap stdVal) 0 0

/-- Model of `Base64.decode`. -/
def decode (content : List Char) : List Nat := a2b (content.map decTranslate)

end Base64

/-! ## `songolo.utils.sha256_snowflake`

`sha256_snowflake()` draws 256 random characters, appends
`str(datetime.datetime.now())`, and returns the SHA-256 hex digest.  The
two non-deterministic inputs (the random draw and the clock) are
modelled as parameters; there is no history parameter because the code
consults no history. -/

def w32 (x : Nat) : Nat := x % 2 ^ 32

def rotr32 (n x : Nat) : Nat := w32 (x / 2 ^ n + x % 2 ^ n * 2 ^ (32 - n))

def xor32 (a b : Nat) : Nat := Nat.xor a b

def and32 (a b : Nat) : Nat := Nat.land a b

def not32 (a : Nat) : Nat := Nat.xor a 0xffffffff

def shaCh (x y z : Nat) : Nat := xor32 (and32 x y) (and32 (not32 x) z)

def shaMaj (x y z : Nat) : Nat := xor32 (and32 x y) (xor32 (and32 x z) (and32 y z))

def bigSig0 (x : Nat) : Nat := xor32 (rotr32 2 x) (xor32 (rotr32 13 x) (rotr32 22 x))

def bigSig1 (x : Nat) : Nat := xor32 (rotr32 6 x) (xor32 (rotr32 11 x) (rotr32 25 x))

def smallSig0 (x : Nat) : Nat := xor32 (rotr32 7 x) (xor32 (rotr32 18 x) (x / 2 ^ 3))

def smallSig1 (x : Nat) : Nat := xor32 (rotr32 17 x) (xor32 (rotr32 19 x) (x / 2 ^ 10))

def shaK : List Nat :=
  [1116352408, 1899447441, 3049323471, 3921009573,
   961987163, 1508970993, 2453635748, 2870763221,
   3624381080, 310598401, 607225278, 1426881987,
   1925078388, 2162078206, 2614888103, 3248222580,
   3835390401, 4022224774, 264347078, 604807628,
   770255983, 1249150122, 1555081692, 1996064986,
   2554220882, 2821834349, 2952996808, 3210313671,
   3336571891, 3584528711, 113926993, 338241895,
   666307205, 773529912, 1294757372, 1396182291,
   1695183700, 1986661051, 2177026350, 2456956037,
   2730485921, 2820302411, 3259730800, 3345764771,
   3516065817, 3600352804, 4094571909, 275423344,
   430227734, 506948616, 659060556, 883997877,
   958139571, 1322822218, 1537002063, 1747873779,
   1955562222, 2024104815, 2227730452, 2361852424,
   2428436474, 2756734187, 3204031479, 3329325298]

structure Hash8 where
  a : Nat
  b : Nat
  c : Nat
  d : Nat
  e : Nat
  f : Nat
  g : Nat
  h : Nat

def shaInit : Hash8 :=
  ⟨1779033703, 3144134277, 1013904242, 2773480762,
   1359893119, 2600822924, 528734635, 1541459225⟩

/-- SHA-256 padding: `0x80`, zeros to 56 mod 64, 8-byte big-endian bit
length. -/
def shaPad (msg : List Nat) : List Nat :=
  let l := msg.length
  let zeros := (120 - (l + 1) % 64) % 64
  let bits := l * 8
  msg ++ 0x80 :: List.replicate zeros 0 ++
    [bits / 2 ^ 56 % 256, bits / 2 ^ 48 % 256, bits / 2 ^ 40 % 256, bits / 2 ^ 32 % 256,
     bits / 2 ^ 24 % 256, bits / 2 ^ 16 % 256, bits / 2 ^ 8 % 256, bits % 256]

/-- Big-endian 32-bit words of a 64-byte chunk. -/
def toWords : List Nat → List Nat
  | b0 :: b1 :: b2 :: b3 :: rest =>
    (b0 * 2 ^ 24 + b1 * 2 ^ 16 + b2 * 2 ^ 8 + b3) :: toWords rest
  | _ => []

/-- Message-schedule extension from 16 to 64 words. -/
def extendWords (ws : List Nat) : Nat → List Nat
  | 0 => ws
  | n + 1 =>
    let len := ws.length
    let nw := w32 (ws.getD (len - 16) 0 + smallSig0 (ws.getD (len - 15) 0) +
      ws.getD (len - 7) 0 + smallSig1 (ws.getD (len - 2) 0))
    extendWords (ws ++ [nw]) n

def shaRound (st : Hash8) (wk : Nat × Nat) : Hash8 :=
  let t1 := w32 (st.h + bigSig1 st.e + shaCh st.e st.f st.g + wk.2 + wk.1)
  let t2 := w32 (bigSig0 st.a + shaMaj st.a st.b st.c)
  ⟨w32 (t1 + t2), st.a, st.b, st.c, w32 (st.d + t1), st.e, st.f, st.g⟩

def processChunk (h : Hash8) (chunk : List Nat) : Hash8 :=
  let ws := extendWords (toWords chunk) 48
  let f := (ws.zip shaK).foldl shaRound h
  ⟨w32 (h.a + f.a), w32 (h.b + f.b), w32 (h.c + f.c), w32 (h.d + f.d),
   w32 (h.e + f.e), w32 (h.f + f.f), w32 (h.g + f.g), w32 (h.h + f.h)⟩

def chunks64 : List Nat → List (List Nat)
  | [] => []
  | b :: rest => ((b :: rest).take 64) :: chunks64 (rest.drop 63)
termination_by l => l.length
decreasing_by simp [List.length_drop]; omega

def toHex8 (wrd : Nat) : List Char :=
  [hexDigCh (wrd / 16 ^ 7), hexDigCh (wrd / 16 ^ 6), hexDigCh (wrd / 16 ^ 5),
   hexDigCh (wrd / 16 ^ 4), hexDigCh (wrd / 16 ^ 3), hexDigCh (wrd / 16 ^ 2),
   hexDigCh (wrd / 16), hexDigCh wrd]

/-- Model of `hashlib.sha256(bytes).hexdigest()`. -/
def sha256Hex (msg : List Nat) : String :=
  let fin := (chunks64 (shaPad msg)).foldl processChunk shaInit
  String.mk (toHex8 fin.a ++ toHex8 fin.b ++ toHex8 fin.c ++ toHex8 fin.d ++
    toHex8 fin.e ++ toHex8 fin.f ++ toHex8 fin.g ++ toHex8 fin.h)

/-- UTF-8 encoding of a string, as Python's `str.encode()`. -/
def utf8Char (c : Char) : List Nat :=
  let n := c.toNat
  if n < 0x80 then [n]
  else if n < 0x800 then [0xc0 + n / 64, 0x80 + n % 64]
  else if n < 0x10000 then [0xe0 + n / 4096, 0x80 + n / 64 % 64, 0x80 + n % 64]
  else [0xf0 + n / 2 ^ 18, 0x80 + n / 4096 % 64, 0x80 + n / 64 % 64, 0x80 + n % 64]

def utf8Bytes (s : String) : List Nat := s.data.foldr (fun c acc => utf8Char c ++ acc) []

/-- Model of `sha256_snowflake`, the random 256-character draw and
`str(datetime.datetime.now())` passed as parameters. -/
def sha256_snowflake (randomDraw : String) (now : String) : String :=
  sha256Hex (utf8Bytes (randomDraw ++ now))



/-! ## Derived definitions used by the verification layer -/

/-- Predicate `GoodB v n`: fuel `n` suffices for `parseValue` to read back the
dumped rendering of `v` from any continuation. -/
def GoodB (v : Json) (n : Nat) : Prop :=
  ∀ (rest : List Char) (fuel : Nat), n ≤ fuel →
    parseValue fuel (dumpsVal v ++ rest) = some (v, rest)

def ValuesGoodB : JObj → Nat → Prop
  | .nil, _ => True
  | .cons _ v tl, n => GoodB v n ∧ ValuesGoodB tl n

/-- Total rendered length of the values of an object, used to relate
needed fuel to available fuel. -/
def objValsLen : JObj → Nat
  | .nil => 0
  | .cons _ v tl => (dumpsVal v).length + objValsLen tl

/-- Entry `encode(kind, details)` with a flat string-to-string details mapping,
as in the spec's Entry-Codec contract. -/
def entryJson (kind : String) (details : List (String × String)) : Json :=
  .obj (.cons "entry" (.str kind) (.cons "details" (.obj (strPairsObj details)) .nil))

def encodeEntry (kind : String) (details : List (String × String)) : String :=
  songoloTag ++ dumps (entryJson kind details)

def isHexLowerDigit (c : Char) : Bool := ('0' ≤ c && c ≤ '9') || ('a' ≤ c && c ≤ 'f')

def entryKinds : List String := ["init", "import", "song", "cleanse"]

/-- All values of an object are JSON strings. -/
def allValsStr : JObj → Bool
  | .nil => true
  | .cons _ v tl =>
    (match v with
     | .str _ => true
     | _ => false) && allValsStr tl

/-- The message shape asserted by the wire-format invariant: a JSON
object with exactly the keys `entry` (a supported kind) and `details`
(a string-to-string mapping). -/
def isEntryShape (j : Json) : Bool :=
  match j with
  | .obj ps =>
    (match ps.lookup "entry" with
     | some (.str k) => entryKinds.contains k
     | _ => false) &&
    (match ps.lookup "details" with
     | some (.obj d) => allValsStr d
     | _ => false) &&
    JObj.length ps == 2
  | _ => false

/-- A commit message satisfies the claimed invariant: it decodes and its
JSON has the entry shape. -/
def messageWellFormed (msg : String) : Bool :=
  match decodeStep msg with
  | .ok j => isEntryShape j
  | _ => false

/-! ## Round-trip of the codec on the messages the program writes

`loads (dumps v) = some v` is established for the value shapes that
occur in commit messages (strings, `null`, and objects of such values),
for arbitrary embedded strings — in particular for arbitrary metadata. -/

theorem skipWs_not {c : Char} (h : jsonWs c = false) (cs : List Char) :
    skipWs (c :: cs) = c :: cs := by
  simp [skipWs, List.dropWhile, h]

theorem skipWs_sp (cs : List Char) : skipWs (' ' :: cs) = skipWs cs := by
  simp [skipWs, List.dropWhile]; rfl

theorem hexVal_digitChar : ∀ d : Nat, d < 16 → hexVal (Nat.digitChar d) = some d := by decide

theorem hex4Val_hex4 (n : Nat) (h : n < 65536) :
    hex4Val (hexDigCh (n / 4096)) (hexDigCh (n / 256)) (hexDigCh (n / 16)) (hexDigCh n)
      = some n := by
  have h1 := hexVal_digitChar (n / 4096 % 16) (Nat.mod_lt _ (by norm_num))
  have h2 := hexVal_digitChar (n / 256 % 16) (Nat.mod_lt _ (by norm_num))
  have h3 := hexVal_digitChar (n / 16 % 16) (Nat.mod_lt _ (by norm_num))
  have h4 := hexVal_digitChar (n % 16) (Nat.mod_lt _ (by norm_num))
  unfold hexDigCh hex4Val
  rw [h1, h2, h3, h4]
  exact congrArg some (by omega)

/-- Unfolding equation of `parseStrBody` at a `\uXXXX` escape, the four
hex digits and the continuation abstract. -/
theorem parseStrBody_u_eq (fuel : Nat) (a b c2 d : Char) (tail : List Char) :
    parseStrBody (fuel + 1) ('\\' :: 'u' :: a :: b :: c2 :: d :: tail) =
      (match hex4Val a b c2 d with
       | none => none
       | some n =>
         if 0xd800 ≤ n ∧ n < 0xdc00 then
           match tail with
           | '\\' :: 'u' :: e :: f :: g :: h :: rest3 =>
             match hex4Val e f g h with
             | some m =>
               if 0xdc00 ≤ m ∧ m < 0xe000 then
                 (parseStrBody fuel rest3).map
                   (fun p => (Char.ofNat ((n - 0xd800) * 1024 + (m - 0xdc00) + 0x10000) :: p.1, p.2))
               else none
             | none => none
           | _ => none
         else if 0xdc00 ≤ n ∧ n < 0xe000 then none
         else (parseStrBody fuel tail).map (fun p => (Char.ofNat n :: p.1, p.2))) := rfl

theorem parseStrBody_plain (fuel : Nat) (c : Char) (rest : List Char)
    (h1 : ¬c = '"') (h2 : ¬c = '\\') (h3 : ¬c.toNat < 0x20) :
    parseStrBody (fuel + 1) (c :: rest) =
      (parseStrBody fuel rest).map (fun p => (c :: p.1, p.2)) := by
  conv_lhs => rw [parseStrBody.eq_def]
  simp only [if_neg h1, if_neg h2, if_neg h3]

theorem parseStrBody_u1 (fuel : Nat) (a b c2 d : Char) (tail : List Char) (n : Nat)
    (hv : hex4Val a b c2 d = some n)
    (h2 : ¬(0xd800 ≤ n ∧ n < 0xdc00)) (h3 : ¬(0xdc00 ≤ n ∧ n < 0xe000)) :
    parseStrBody (fuel + 1) ('\\' :: 'u' :: a :: b :: c2 :: d :: tail) =
      (parseStrBody fuel tail).map (fun p => (Char.ofNat n :: p.1, p.2)) := by
  rw [parseStrBody_u_eq]
  simp only [hv]
  rw [if_neg h2, if_neg h3]

theorem parseStrBody_u2 (fuel : Nat) (a b c2 d e f g h : Char) (tail : List Char) (n m : Nat)
    (hv1 : hex4Val a b c2 d = some n) (hn : 0xd800 ≤ n ∧ n < 0xdc00)
    (hv2 : hex4Val e f g h = some m) (hm : 0xdc00 ≤ m ∧ m < 0xe000) :
    parseStrBody (fuel + 1)
        ('\\' :: 'u' :: a :: b :: c2 :: d :: '\\' :: 'u' :: e :: f :: g :: h :: tail) =
      (parseStrBody fuel tail).map
        (fun p => (Char.ofNat ((n - 0xd800) * 1024 + (m - 0xdc00) + 0x10000) :: p.1, p.2)) := by
  rw [parseStrBody_u_eq]
  simp only [hv1, hv2]
  rw [if_pos hn, if_pos hm]

set_option maxHeartbeats 4000000 in
theorem parseStrBody_escapeChar (c : Char) (tail : List Char) (fuel : Nat) :
    parseStrBody (fuel + 1) (escapeChar c ++ tail) =
      (parseStrBody fuel tail).map (fun p => (c :: p.1, p.2)) := by
  have hval : c.toNat < 0xd800 ∨ (0xdfff < c.toNat ∧ c.toNat < 0x110000) := c.valid
  unfold escapeChar
  split_ifs with h1 h2 h3 h4 h5 h6 h7 h8 h9 h10
  · subst h1; rfl
  · subst h2; rfl
  · subst h3; rfl
  · subst h4; rfl
  · subst h5; rfl
  · subst h6; rfl
  · subst h7; rfl
  · -- `\uXXXX` escape of a control character
    simp only [hex4, List.cons_append, List.nil_append]
    rw [parseStrBody_u1 fuel _ _ _ _ tail c.toNat (hex4Val_hex4 c.toNat (by omega))
      (by omega) (by omega), Char.ofNat_toNat]
  · -- printable ASCII, emitted verbatim
    simp only [List.cons_append, List.nil_append]
    exact parseStrBody_plain fuel c tail h1 h2 h8
  · -- `\uXXXX` escape of a BMP character (never a surrogate, by `Char`
    -- validity)
    simp only [hex4, List.cons_append, List.nil_append]
    rw [parseStrBody_u1 fuel _ _ _ _ tail c.toNat (hex4Val_hex4 c.toNat (by omega))
      (by omega) (by omega), Char.ofNat_toNat]
  · -- astral character: surrogate pair
    simp only [hex4, List.cons_append, List.nil_append, List.append_assoc]
    rw [parseStrBody_u2 fuel _ _ _ _ _ _ _ _ tail
      (0xd800 + (c.toNat - 0x10000) / 0x400) (0xdc00 + (c.toNat - 0x10000) % 0x400)
      (hex4Val_hex4 _ (by omega)) (by constructor <;> omega)
      (hex4Val_hex4 _ (by omega)) (by constructor <;> omega)]
    have harith : (0xd800 + (c.toNat - 0x10000) / 0x400 - 0xd800) * 1024 +
        (0xdc00 + (c.toNat - 0x10000) % 0x400 - 0xdc00) + 0x10000 = c.toNat := by omega
    rw [harith, Char.ofNat_toNat]

set_option maxHeartbeats 1000000 in
theorem escapeChar_length_pos (c : Char) : 1 ≤ (escapeChar c).length := by
  unfold escapeChar
  split_ifs <;> simp [hex4]

theorem escList_length (l : List Char) : l.length ≤ (escapeList l).length := by
  induction l with
  | nil => simp [escapeList]
  | cons c l ih =>
    have := escapeChar_length_pos c
    simp only [escapeList, List.length_append, List.length_cons]
    omega

theorem parseStrBody_escList (l : List Char) :
    ∀ (rest : List Char) (fuel : Nat), l.length + 1 ≤ fuel →
      parseStrBody fuel (escapeList l ++ '"' :: rest) = some (l, rest) := by
  induction l with
  | nil =>
    intro rest fuel hf
    obtain ⟨f, rfl⟩ : ∃ f, fuel = f + 1 := ⟨fuel - 1, by omega⟩
    rfl
  | cons c l ih =>
    intro rest fuel hf
    obtain ⟨f, rfl⟩ : ∃ f, fuel = f + 1 := ⟨fuel - 1, by omega⟩
    rw [escapeList, List.append_assoc, parseStrBody_escapeChar,
      ih rest f (by simp at hf; omega)]
    rfl

/-- List-style induction for `JObj` (no motive on the contained values). -/
theorem JObj.inductionOn {P : JObj → Prop} (h0 : P .nil)
    (h1 : ∀ k v tl, P tl → P (.cons k v tl)) : ∀ ps : JObj, P ps
  | .nil => h0
  | .cons k v tl => h1 k v tl (JObj.inductionOn h0 h1 tl)

/-- Unfolding equation of `parseValue` at an opening quote. -/
theorem parseValue_quote_eq (f : Nat) (X : List Char) :
    parseValue (f + 1) ('"' :: X) =
      (parseStrBody X.length X).map (fun p => (Json.str (String.mk p.1), p.2)) := rfl

/-- Unfolding equation of `parseValue` at an opening brace. -/
theorem parseValue_brace_eq (f : Nat) (X : List Char) :
    parseValue (f + 1) ('{' :: X) =
      (match skipWs X with
       | '}' :: rest2 => some (Json.obj .nil, rest2)
       | _ => (parseMembers f X).map (fun p => (Json.obj p.1, p.2))) := rfl

/-- Unfolding equation of `parseMembers` at the opening quote of a key. -/
theorem parseMembers_quote_eq (f : Nat) (X : List Char) :
    parseMembers (f + 1) ('"' :: X) =
      (match parseStrBody X.length X with
       | none => none
       | some (key, rest2) =>
         match skipWs rest2 with
         | ':' :: rest3 =>
           match parseValue f rest3 with
           | none => none
           | some (v, rest4) =>
             match skipWs rest4 with
             | ',' :: rest5 =>
               (parseMembers f rest5).map (fun p => (JObj.cons (String.mk key) v p.1, p.2))
             | '}' :: rest5 => some (JObj.cons (String.mk key) v .nil, rest5)
             | _ => none
         | _ => none) := rfl

theorem parseValue_sp (f : Nat) (X : List Char) :
    parseValue f (' ' :: X) = parseValue f X := by
  cases f <;> rfl

theorem parseMembers_sp (f : Nat) (X : List Char) :
    parseMembers f (' ' :: X) = parseMembers f X := by
  cases f <;> rfl



theorem goodB_mono {v : Json} {n m : Nat} (h : n ≤ m) (g : GoodB v n) : GoodB v m :=
  fun rest fuel hf => g rest fuel (le_trans h hf)



theorem goodB_str (s : String) : GoodB (.str s) 1 := by
  intro rest fuel hf
  obtain ⟨f, rfl⟩ : ∃ f, fuel = f + 1 := ⟨fuel - 1, by omega⟩
  show parseValue (f + 1) ('"' :: ((escapeList s.data ++ ['"']) ++ rest)) = _
  rw [parseValue_quote_eq]
  have hX : (escapeList s.data ++ ['"']) ++ rest = escapeList s.data ++ '"' :: rest := by simp
  rw [hX]
  have hlen : s.data.length + 1 ≤ (escapeList s.data ++ '"' :: rest).length := by
    have := escList_length s.data
    simp only [List.length_append, List.length_cons]
    omega
  simp only [parseStrBody_escList s.data rest _ hlen]
  rfl

theorem goodB_null : GoodB .null 1 := by
  intro rest fuel hf
  obtain ⟨f, rfl⟩ : ∃ f, fuel = f + 1 := ⟨fuel - 1, by omega⟩
  rfl

theorem parseMembers_dumps (bnd : Nat) (tl : JObj) :
    ∀ (k : String) (v : Json), GoodB v bnd → ValuesGoodB tl bnd →
      ∀ (rest : List Char) (fuel : Nat), 1 + JObj.length tl + bnd ≤ fuel →
      parseMembers fuel
          ('"' :: (escapeList k.data ++ '"' :: ':' :: ' ' ::
            (dumpsVal v ++ (objRest tl ++ '}' :: rest)))) =
        some (.cons k v tl, rest) := by
  induction tl using JObj.inductionOn with
  | h0 =>
    intro k v gv _ rest fuel hf
    obtain ⟨f, rfl⟩ : ∃ f, fuel = f + 1 := ⟨fuel - 1, by omega⟩
    rw [parseMembers_quote_eq]
    have hlen : k.data.length + 1 ≤
        (escapeList k.data ++ '"' :: ':' :: ' ' ::
          (dumpsVal v ++ (objRest .nil ++ '}' :: rest))).length := by
      have := escList_length k.data
      simp only [List.length_append, List.length_cons]
      omega
    simp only [parseStrBody_escList k.data _ _ hlen]
    rw [skipWs_not (by decide)]
    simp only [parseValue_sp]
    have hv := gv ('}' :: rest) f (by omega)
    rw [show (objRest JObj.nil ++ '}' :: rest) = '}' :: rest from rfl] at *
    simp only [hv]
    rw [skipWs_not (by decide)]
    rfl
  | h1 k2 v2 tl2 ih =>
    intro k v gv gtl rest fuel hf
    obtain ⟨gv2, gtl2⟩ := gtl
    obtain ⟨f, rfl⟩ : ∃ f, fuel = f + 1 := ⟨fuel - 1, by omega⟩
    rw [parseMembers_quote_eq]
    have hlen : k.data.length + 1 ≤
        (escapeList k.data ++ '"' :: ':' :: ' ' ::
          (dumpsVal v ++ (objRest (.cons k2 v2 tl2) ++ '}' :: rest))).length := by
      have := escList_length k.data
      simp only [List.length_append, List.length_cons]
      omega
    simp only [parseStrBody_escList k.data _ _ hlen]
    rw [skipWs_not (by decide)]
    simp only [parseValue_sp]
    rw [show objRest (.cons k2 v2 tl2) ++ '}' :: rest =
      ',' :: ' ' :: ('"' :: (escapeList k2.data ++ '"' :: ':' :: ' ' ::
        (dumpsVal v2 ++ (objRest tl2 ++ '}' :: rest)))) from by
      simp [objRest, strChars, List.append_assoc]]
    have hv := gv (',' :: ' ' :: ('"' :: (escapeList k2.data ++ '"' :: ':' :: ' ' ::
      (dumpsVal v2 ++ (objRest tl2 ++ '}' :: rest))))) f (by simp [JObj.length] at hf ⊢; omega)
    simp only [hv]
    rw [skipWs_not (by decide)]
    simp only [parseMembers_sp]
    rw [ih k2 v2 gv2 gtl2 rest f (by simp [JObj.length] at hf ⊢; omega)]
    rfl

theorem goodB_obj (bnd : Nat) (ps : JObj) (h : ValuesGoodB ps bnd) :
    GoodB (.obj ps) (2 + JObj.length ps + bnd) := by
  intro rest fuel hf
  obtain ⟨f, rfl⟩ : ∃ f, fuel = f + 1 := ⟨fuel - 1, by omega⟩
  cases ps with
  | nil => rfl
  | cons k v tl =>
    obtain ⟨gv, gtl⟩ := h
    show parseValue (f + 1)
      ('{' :: ((((('"' :: escapeList k.data ++ ['"']) ++ ':' :: ' ' :: dumpsVal v) ++ objRest tl) ++ ['}']) ++ rest)) = _
    rw [parseValue_brace_eq]
    rw [show ((((('"' :: escapeList k.data ++ ['"']) ++ ':' :: ' ' :: dumpsVal v) ++ objRest tl) ++ ['}']) ++ rest) =
      '"' :: (escapeList k.data ++ '"' :: ':' :: ' ' :: (dumpsVal v ++ (objRest tl ++ '}' :: rest))) from by
      simp [List.append_assoc]]
    rw [skipWs_not (by decide)]
    rw [parseMembers_dumps bnd tl k v gv gtl rest f (by simp [JObj.length] at hf ⊢; omega)]
    rfl



theorem objRest_len (tl : JObj) :
    4 * JObj.length tl + objValsLen tl ≤ (objRest tl).length := by
  induction tl using JObj.inductionOn with
  | h0 => simp [objRest, JObj.length, objValsLen]
  | h1 k v tl ih =>
    simp only [objRest, JObj.length, objValsLen, strChars, List.length_cons,
      List.length_append]
    omega

theorem dumpsObj_len (ps : JObj) :
    2 + 4 * JObj.length ps + objValsLen ps ≤ (dumpsVal (.obj ps)).length := by
  cases ps with
  | nil => simp [JObj.length, objValsLen]; rfl
  | cons k v tl =>
    have h := objRest_len tl
    simp only [dumpsVal, strChars, JObj.length, objValsLen, List.length_cons,
      List.length_append]
    omega

theorem loads_dumps (v : Json) (bnd : Nat) (g : GoodB v bnd)
    (hb : bnd ≤ (dumpsVal v).length + 1) : loads (dumps v) = some v := by
  have h := g [] ((dumpsVal v).length + 1) hb
  rw [List.append_nil] at h
  show (match parseValue ((dumpsVal v).length + 1) (dumpsVal v) with
        | some (w, rest) => if skipWs rest = [] then some w else none
        | none => none) = some v
  simp only [h]
  rfl

theorem isPre_self_append (p x : List Char) : isPre p (p ++ x) = true := by
  induction p with
  | nil => rfl
  | cons a as ih => simp [isPre, ih]

theorem pyRemoveFirst_self (p x : List Char) (hp : p ≠ []) :
    pyRemoveFirst p (p ++ x) = x := by
  cases p with
  | nil => exact absurd rfl hp
  | cons a as =>
    show pyRemoveFirst (a :: as) (a :: (as ++ x)) = x
    rw [pyRemoveFirst, show a :: (as ++ x) = (a :: as) ++ x from rfl,
      if_pos (isPre_self_append (a :: as) x), List.drop_left]

theorem startsTag_append (x : String) : startsTag (songoloTag ++ x) = true := by
  show isPre songoloTag.data (songoloTag ++ x).data = true
  rw [String.data_append]
  exact isPre_self_append _ _

theorem stripTag_append (x : String) : stripTag (songoloTag ++ x) = x := by
  show String.mk (pyRemoveFirst songoloTag.data (songoloTag ++ x).data) = x
  rw [String.data_append, pyRemoveFirst_self _ _ (by decide)]

/-- A message built as prefix-plus-dumps decodes to the dumped value,
provided the dumped value parses back. -/
theorem decodeStep_tag_dumps (v : Json) (h : loads (dumps v) = some v) :
    decodeStep (songoloTag ++ dumps v) = .ok v := by
  unfold decodeStep
  simp only [startsTag_append, stripTag_append, h, if_true]

theorem goodB_optJson (o : Option String) : GoodB (optJson o) 1 := by
  cases o with
  | none => exact goodB_null
  | some s => exact goodB_str s

theorem strPairsObj_length (l : List (String × String)) :
    JObj.length (strPairsObj l) = l.length := by
  induction l with
  | nil => rfl
  | cons p tl ih =>
    obtain ⟨k, v⟩ := p
    simp [strPairsObj, JObj.length, ih]
    omega

theorem valuesGood_strPairs (l : List (String × String)) (n : Nat) (hn : 1 ≤ n) :
    ValuesGoodB (strPairsObj l) n := by
  induction l with
  | nil => trivial
  | cons p tl ih =>
    obtain ⟨k, v⟩ := p
    exact ⟨goodB_mono hn (goodB_str v), ih⟩

theorem goodB_strPairsObj (l : List (String × String)) :
    GoodB (.obj (strPairsObj l)) (3 + l.length) := by
  have h := goodB_obj 1 (strPairsObj l) (valuesGood_strPairs l 1 le_rfl)
  rw [strPairsObj_length] at h
  exact goodB_mono (by omega) h

theorem valuesGood_filterTruthy (ps : JObj) (n : Nat) (h : ValuesGoodB ps n) :
    ValuesGoodB (filterTruthy ps) n := by
  induction ps using JObj.inductionOn with
  | h0 => trivial
  | h1 k v tl ih =>
    obtain ⟨hv, htl⟩ := h
    show ValuesGoodB (if truthy v then JObj.cons k v (filterTruthy tl) else filterTruthy tl) n
    split
    · exact ⟨hv, ih htl⟩
    · exact ih htl

theorem valuesGood_baseDict (m : MetaData) :
    ValuesGoodB (baseDict m) (3 + m.extras.length) := by
  refine ⟨goodB_mono (by omega) (goodB_str _), goodB_mono (by omega) (goodB_str _),
    goodB_mono (by omega) (goodB_optJson _), goodB_mono (by omega) (goodB_optJson _),
    goodB_mono (by omega) (goodB_optJson _), goodB_mono (by omega) (goodB_optJson _),
    goodB_mono (by omega) (goodB_optJson _), goodB_strPairsObj m.extras, trivial⟩

theorem valuesGood_metaDict (m : MetaData) :
    ValuesGoodB m.dict (3 + m.extras.length) :=
  valuesGood_filterTruthy _ _ (valuesGood_baseDict m)

theorem goodB_metaDict (m : MetaData) :
    GoodB (.obj m.dict) (5 + JObj.length m.dict + m.extras.length) := by
  have h := goodB_obj (3 + m.extras.length) m.dict (valuesGood_metaDict m)
  exact goodB_mono (by omega) h

theorem mem_filterTruthy {k : String} {v : Json} {ps : JObj}
    (h : (k, v) ∈ ps.toList) (ht : truthy v = true) :
    (k, v) ∈ (filterTruthy ps).toList := by
  induction ps using JObj.inductionOn with
  | h0 => simp [JObj.toList] at h
  | h1 k2 v2 tl ih =>
    simp only [JObj.toList, List.mem_cons] at h
    show (k, v) ∈ (if truthy v2 then JObj.cons k2 v2 (filterTruthy tl) else filterTruthy tl).toList
    rcases h with h | h
    · obtain ⟨hk, hv⟩ := Prod.mk.injEq .. ▸ h
      subst hk; subst hv
      rw [if_pos ht]
      simp [JObj.toList]
    · split
      · simp [JObj.toList, ih h]
      · exact ih h

theorem objValsLen_mem {k : String} {v : Json} {ps : JObj}
    (h : (k, v) ∈ ps.toList) : (dumpsVal v).length ≤ objValsLen ps := by
  induction ps using JObj.inductionOn with
  | h0 => simp [JObj.toList] at h
  | h1 k2 v2 tl ih =>
    simp only [JObj.toList, List.mem_cons] at h
    simp only [objValsLen]
    rcases h with h | h
    · obtain ⟨_, hv⟩ := Prod.mk.injEq .. ▸ h
      subst hv
      omega
    · have := ih h
      omega

/-- Round trip for the two-member entry object shapes written by the
program: `{"<k1>": "<s>", "<k2>": {...}}`. -/
theorem loads_dumps_entryLike (k1 k2 s : String) (d : JObj) (bndD : Nat)
    (gd : GoodB (.obj d) bndD)
    (hD : bndD ≤ 8 + (dumpsVal (Json.obj d)).length) :
    loads (dumps (.obj (.cons k1 (.str s) (.cons k2 (.obj d) .nil)))) =
      some (.obj (.cons k1 (.str s) (.cons k2 (.obj d) .nil))) := by
  have hvg : ValuesGoodB (JObj.cons k1 (.str s) (.cons k2 (.obj d) .nil)) (bndD + 1) :=
    ⟨goodB_mono (by omega) (goodB_str s), goodB_mono (by omega) gd, trivial⟩
  have hg := goodB_obj (bndD + 1) _ hvg
  refine loads_dumps _ _ hg ?_
  have h1 := dumpsObj_len (JObj.cons k1 (.str s) (.cons k2 (.obj d) .nil))
  have hlen2 : JObj.length (JObj.cons k1 (.str s) (.cons k2 (.obj d) .nil)) = 2 := rfl
  have h2 : objValsLen (JObj.cons k1 (.str s) (.cons k2 (.obj d) .nil)) =
      (dumpsVal (Json.str s)).length + (dumpsVal (Json.obj d)).length := by
    simp [objValsLen]
  rw [hlen2] at h1 ⊢
  rw [h2] at h1
  have h3 : 2 ≤ (dumpsVal (Json.str s)).length := by
    show 2 ≤ (strChars s).length
    simp only [strChars, List.length_cons, List.length_append]
    omega
  omega

/-- The song commit message's JSON round-trips for every metadata value. -/
theorem loads_dumps_song (m : MetaData) :
    loads (dumps (songEntryJson m)) = some (songEntryJson m) := by
  show loads (dumps (.obj (.cons "entry" (.str "song") (.cons "details" (.obj m.dict) .nil)))) = _
  refine loads_dumps_entryLike "entry" "details" "song" m.dict _ (goodB_metaDict m) ?_
  have h1 := dumpsObj_len m.dict
  rcases hex : m.extras with _ | ⟨p, tl⟩
  · simp [hex]
    omega
  · have hmem : ("extras", Json.obj (strPairsObj m.extras)) ∈ (baseDict m).toList := by
      simp [baseDict, JObj.toList]
    have ht : truthy (Json.obj (strPairsObj m.extras)) = true := by
      rw [hex]
      obtain ⟨k, v⟩ := p
      rfl
    have h2 : (dumpsVal (Json.obj (strPairsObj m.extras))).length ≤ objValsLen m.dict :=
      objValsLen_mem (mem_filterTruthy hmem ht)
    have h3 := dumpsObj_len (strPairsObj m.extras)
    rw [strPairsObj_length] at h3
    rw [← hex]
    show 5 + JObj.length m.dict + m.extras.length ≤ 8 + (dumpsVal (Json.obj m.dict)).length
    omega

/-- Round trip `decode(encode(...))` for the song message. -/
theorem decodeStep_songCommitMessage (m : MetaData) :
    decodeStep (songCommitMessage m) = .ok (songEntryJson m) :=
  decodeStep_tag_dumps _ (loads_dumps_song m)





theorem loads_dumps_entry (kind : String) (details : List (String × String)) :
    loads (dumps (entryJson kind details)) = some (entryJson kind details) := by
  show loads (dumps (.obj (.cons "entry" (.str kind)
    (.cons "details" (.obj (strPairsObj details)) .nil)))) = _
  refine loads_dumps_entryLike _ _ _ _ _ (goodB_strPairsObj details) ?_
  have h1 := dumpsObj_len (strPairsObj details)
  rw [strPairsObj_length] at h1
  omega

theorem mem_filterTruthy_iff (ps : JObj) (k : String) (v : Json) :
    (k, v) ∈ (filterTruthy ps).toList ↔ ((k, v) ∈ ps.toList ∧ truthy v = true) := by
  induction ps using JObj.inductionOn with
  | h0 => simp [filterTruthy, JObj.toList]
  | h1 k2 v2 tl ih =>
    show (k, v) ∈ (if truthy v2 then JObj.cons k2 v2 (filterTruthy tl) else filterTruthy tl).toList ↔ _
    by_cases h : truthy v2 = true
    · rw [if_pos h]
      simp only [JObj.toList, List.mem_cons, ih]
      constructor
      · rintro (he | ⟨hm, ht⟩)
        · obtain ⟨hk, hv⟩ := Prod.mk.injEq .. ▸ he
          subst hk; subst hv
          exact ⟨Or.inl rfl, h⟩
        · exact ⟨Or.inr hm, ht⟩
      · rintro ⟨he | hm, ht⟩
        · exact Or.inl he
        · exact Or.inr ⟨hm, ht⟩
    · rw [if_neg h]
      simp only [JObj.toList, List.mem_cons, ih]
      constructor
      · rintro ⟨hm, ht⟩
        exact ⟨Or.inr hm, ht⟩
      · rintro ⟨he | hm, ht⟩
        · obtain ⟨hk, hv⟩ := Prod.mk.injEq .. ▸ he
          subst hk; subst hv
          exact absurd ht h
        · exact ⟨hm, ht⟩

theorem truthy_strPairs (l : List (String × String)) :
    truthy (.obj (strPairsObj l)) = true ↔ l ≠ [] := by
  cases l with
  | nil => simp [strPairsObj, truthy]
  | cons p tl =>
    obtain ⟨k, v⟩ := p
    simp [strPairsObj, truthy]



theorem digitChar_hexLower : ∀ d : Nat, d < 16 → isHexLowerDigit (Nat.digitChar d) = true := by
  decide

theorem hexDigCh_hexLower (x : Nat) : isHexLowerDigit (hexDigCh x) = true :=
  digitChar_hexLower (x % 16) (Nat.mod_lt _ (by norm_num))

theorem toHex8_length (w : Nat) : (toHex8 w).length = 8 := rfl

theorem sha256Hex_length (msg : List Nat) : (sha256Hex msg).length = 64 := by
  simp [sha256Hex, String.length, List.length_append, toHex8_length]

theorem sha256Hex_hexLower (msg : List Nat) :
    (sha256Hex msg).data.all isHexLowerDigit = true := by
  simp [sha256Hex, List.all_append, toHex8, hexDigCh_hexLower]

theorem cleanse_master_tree_idem (s : LibState) :
    (cleanse_master (cleanse_master s)).tree = (cleanse_master s).tree := by
  simp [cleanse_master, List.filter_filter]









/-- C3 counterexample: a message that carries the reserved prefix but no
valid JSON after it makes the decoder of `commit_data_history` raise
`json.JSONDecodeError` (there is no `try` around `json.loads`), instead
of returning an empty result as the claim requires. -/
theorem c3_counterexample :
    decodeStep "[Songolo] x" = .raised ∧ decodeStep "[Songolo] x" ≠ .skipped :=
  ⟨rfl, fun h =>
    DecodeOutcome.noConfusion
      ((rfl : decodeStep "[Songolo] x" = DecodeOutcome.raised).symm.trans h)⟩

/-- C3 (amended): for every message, the decoder skips exactly the
messages lacking the prefix; a message with the prefix whose remainder
fails to parse makes it raise (rather than return an empty result); a
message with the prefix and valid JSON yields the parsed data. -/
theorem c3_amended (msg : String) :
    (decodeStep msg = .skipped ↔ ¬startsTag msg = true) ∧
      (decodeStep msg = .raised ↔ (startsTag msg = true ∧ loads (stripTag msg) = none)) ∧
      (∀ j, decodeStep msg = .ok j ↔ (startsTag msg = true ∧ loads (stripTag msg) = some j)) := by
  unfold decodeStep
  by_cases h : startsTag msg = true
  · rw [if_pos h]
    cases hl : loads (stripTag msg) with
    | none => exact ⟨by simp [h], by simp [h], by intro j; simp⟩
    | some v => exact ⟨by simp [h], by simp, by intro j; simp [h, Option.some.injEq]⟩
  · rw [if_neg h]
    exact ⟨by simp [h], by simp [h], by intro j; simp [h]⟩

/-- C4: the entry codec round-trips: for every supported kind and every
string-to-string details mapping, the encoded message
`prefix + json({"entry": kind, "details": details})` decodes back to
exactly that entry. -/
theorem c4_roundtrip (kind : String) (details : List (String × String))
    (_hkind : kind ∈ entryKinds) (_hnodup : (details.map Prod.fst).Nodup) :
    decodeStep (encodeEntry kind details) = .ok (entryJson kind details) :=
  decodeStep_tag_dumps _ (loads_dumps_entry kind details)

/-- C4 witness at a concrete kind and mapping. -/
theorem c4_roundtrip_witness :
    "song" ∈ entryKinds ∧
      (([("artist", "A")] : List (String × String)).map Prod.fst).Nodup ∧
      decodeStep (encodeEntry "song" [("artist", "A")]) =
        .ok (entryJson "song" [("artist", "A")]) :=
  ⟨by decide, by decide, c4_roundtrip "song" [("artist", "A")] (by decide) (by decide)⟩

/-- C5: `cleanse_master` globs `*.mp3` in the library root (`self.path`),
but the repository's working tree is the `songs/` subdirectory, where
every stored song lives (`storagepath.joinpath(filename)`), so after a
merge the binary payload `songs/abc.mp3` survives the cleanse: the
canonical working tree is left unchanged, binary file included. -/
theorem c5_cleanse_leaves_binary :
    "songs/abc.mp3" ∈
        (cleanse_master ⟨["songs/README.md", "songs/abc.mp3"], [initMessage]⟩).tree ∧
      (cleanse_master ⟨["songs/README.md", "songs/abc.mp3"], [initMessage]⟩).tree =
        ["songs/README.md", "songs/abc.mp3"] := by
  constructor
  · decide
  · decide

/-- C6 counterexample: one cleanse and two consecutive cleanses do not
produce equal repository states — every `cleanse_master` call appends
one more cleanse commit to the master history, even when it removed
nothing. -/
theorem c6_counterexample :
    cleanse_master (cleanse_master ⟨[], []⟩) ≠ cleanse_master ⟨[], []⟩ := by
  decide

/-- C6 (amended): a second `cleanse_master` never raises and leaves the
working tree exactly as the first left it; the only difference is one
additional cleanse-entry commit appended to the master history. -/
theorem c6_amended (s : LibState) :
    (cleanse_master (cleanse_master s)).tree = (cleanse_master s).tree ∧
      (cleanse_master (cleanse_master s)).masterHistory =
        (cleanse_master s).masterHistory ++ [cleanseMessage] :=
  ⟨cleanse_master_tree_idem s, rfl⟩

/-- C7 counterexample: `sha256_snowflake` takes no history and performs
no uniqueness check — instantiating the claim's history with the
singleton of the generator's own output shows a colliding identity is
returned (accepted) rather than regenerated or rejected. -/
theorem c7_counterexample :
    sha256_snowflake (String.mk (List.replicate 256 'A')) "2022-01-01 00:00:00.000000" ∈
      [sha256_snowflake (String.mk (List.replicate 256 'A')) "2022-01-01 00:00:00.000000"] :=
  List.mem_singleton.mpr rfl

/-- C7 (amended): the generator consults no history, never fails, and
deterministically returns the 64-character lower-case-hex SHA-256 digest
of the random draw concatenated with the timestamp. -/
theorem c7_amended (randomDraw now : String) :
    (sha256_snowflake randomDraw now).length = 64 ∧
      (sha256_snowflake randomDraw now).data.all isHexLowerDigit = true :=
  ⟨sha256Hex_length _, sha256Hex_hexLower _⟩

/-- C9: with `altchars = b"+="`, decoding maps every `=` — the padding
character included — back to `/`, so the codec corrupts any input whose
length is not a multiple of 3: `decode(encode(b"a"))` is
`b"a\x0f\xff"`, not `b"a"`. -/
theorem c9_decode_encode :
    Base64.decode (Base64.encode [97]) = [97, 15, 255] ∧
      Base64.decode (Base64.encode [97]) ≠ [97] := by
  constructor
  · decide
  · decide

/-- C10: a `MetaData` whose extras lack the `"snowflake"` key makes the
`snowflake` property raise `ValueError` (no default identity), and the
branch-name and file-name properties, which interpolate it, propagate
that error. -/
theorem c10_missing_snowflake (m : MetaData)
    (h : m.extras.lookup "snowflake" = none) :
    MetaData.snowflake m = .error "Invalid song! Song does not have a snowflake." ∧
      Song.branch m = .error "Invalid song! Song does not have a snowflake." ∧
      Song.filename m = .error "Invalid song! Song does not have a snowflake." := by
  unfold Song.branch Song.filename MetaData.snowflake
  simp [h, Except.map]

/-- C10 witness: metadata with empty extras. -/
theorem c10_missing_snowflake_witness :
    (({ artist := "A", title := "B" } : MetaData).extras.lookup "snowflake" = none) ∧
      MetaData.snowflake { artist := "A", title := "B" } =
        .error "Invalid song! Song does not have a snowflake." :=
  ⟨rfl, (c10_missing_snowflake { artist := "A", title := "B" } rfl).1⟩

/-- C1: evaluating `Library.get_song` on the canonical history produced
by a successful import (bootstrap commit, the song's commit, the cleanse
commit).  `Song.commit_file` writes its entry with kind `"song"` and the
snowflake nested inside `details["extras"]`, while `get_song` searches
for kind `"import"` with a top-level `details["snowflake"]` — so the
lookup finds nothing and returns `None` instead of the imported song's
metadata.  (On an empty history it also returns `None`, as the claim's
absence case states.) -/
theorem c1_get_song_after_import :
    get_song
        [initMessage,
          songCommitMessage
            { artist := "A", title := "B", extras := [("snowflake", "abc123")] },
          cleanseMessage] "abc123" = .ok none ∧
      get_song [initMessage] "abc123" = .ok none :=
  ⟨rfl, rfl⟩

/-- C2 counterexample: two commits the program writes violate the
claimed wire shape.  The bootstrap commit's JSON is
`{"job": "init", "details": {}}` — the key is `"job"`, not `"entry"` —
and a song commit's `details` contains the nested `extras` object, so
`details` is not a string-to-string mapping. -/
theorem c2_counterexample :
    messageWellFormed initMessage = false ∧
      messageWellFormed
        (songCommitMessage
          { artist := "A", title := "B", extras := [("snowflake", "abc123")] }) = false :=
  ⟨rfl, rfl⟩

/-- C2 (amended): every commit message the program writes is
`"<prefix><json>"` and decodes.  The song and cleanse commits' JSON has
exactly the keys `entry` and `details`, with `entry` equal to `"song"`
resp. `"cleanse"`; the bootstrap commit uses the key `"job"` (value
`"init"`) in place of `"entry"`; song-commit details are the truthy
metadata fields, with the nested string-to-string `extras` object. -/
theorem c2_amended (m : MetaData) :
    decodeStep initMessage = .ok initEntryJson ∧
      decodeStep cleanseMessage = .ok cleanseEntryJson ∧
      decodeStep (songCommitMessage m) = .ok (songEntryJson m) :=
  ⟨rfl, rfl, decodeStep_songCommitMessage m⟩

/-- C8: `MetaData.dict` is exactly the truthy projection of the pydantic
field mapping: an item survives iff it is a field entry with a truthy
value; each required string field appears iff non-empty, with its value;
each optional field appears iff set to a non-empty string, with that
string; `extras` appears iff non-empty, as the nested object. -/
theorem c8_nonempty_projection (m : MetaData) :
    (∀ k v, (k, v) ∈ m.dict.toList ↔ ((k, v) ∈ (baseDict m).toList ∧ truthy v = true)) ∧
      (∀ v, ("artist", v) ∈ m.dict.toList ↔ (v = .str m.artist ∧ m.artist ≠ "")) ∧
      (∀ v, ("title", v) ∈ m.dict.toList ↔ (v = .str m.title ∧ m.title ≠ "")) ∧
      (∀ v, ("album", v) ∈ m.dict.toList ↔ ∃ s, v = .str s ∧ m.album = some s ∧ s ≠ "") ∧
      (∀ v, ("album_artist", v) ∈ m.dict.toList ↔
        ∃ s, v = .str s ∧ m.album_artist = some s ∧ s ≠ "") ∧
      (∀ v, ("genre", v) ∈ m.dict.toList ↔ ∃ s, v = .str s ∧ m.genre = some s ∧ s ≠ "") ∧
      (∀ v, ("year", v) ∈ m.dict.toList ↔ ∃ s, v = .str s ∧ m.year = some s ∧ s ≠ "") ∧
      (∀ v, ("composer", v) ∈ m.dict.toList ↔
        ∃ s, v = .str s ∧ m.composer = some s ∧ s ≠ "") ∧
      (∀ v, ("extras", v) ∈ m.dict.toList ↔
        (v = .obj (strPairsObj m.extras) ∧ m.extras ≠ [])) := by
  refine ⟨fun k v => mem_filterTruthy_iff _ _ _, ?_, ?_, ?_, ?_, ?_, ?_, ?_, ?_⟩ <;> intro v
  · rw [show m.dict = filterTruthy (baseDict m) from rfl, mem_filterTruthy_iff]
    simp [baseDict, JObj.toList, truthy, bne_iff_ne]
    intro h
    subst h
    simp [truthy]
  · rw [show m.dict = filterTruthy (baseDict m) from rfl, mem_filterTruthy_iff]
    simp [baseDict, JObj.toList, truthy, bne_iff_ne]
    intro h
    subst h
    simp [truthy]
  · rw [show m.dict = filterTruthy (baseDict m) from rfl, mem_filterTruthy_iff]
    cases hm : m.album with
    | none =>
      simp [baseDict, JObj.toList, hm, truthy, optJson]
      rintro rfl
      rfl
    | some s =>
      simp [baseDict, JObj.toList, hm, optJson]
      constructor
      · rintro ⟨rfl, ht⟩
        exact ⟨s, rfl, rfl, by simpa [truthy, bne_iff_ne] using ht⟩
      · rintro ⟨s1, rfl, rfl, hne⟩
        refine ⟨rfl, ?_⟩
        simp [truthy, bne_iff_ne]
        exact hne
  · rw [show m.dict = filterTruthy (baseDict m) from rfl, mem_filterTruthy_iff]
    cases hm : m.album_artist with
    | none =>
      simp [baseDict, JObj.toList, hm, truthy, optJson]
      rintro rfl
      rfl
    | some s =>
      simp [baseDict, JObj.toList, hm, optJson]
      constructor
      · rintro ⟨rfl, ht⟩
        exact ⟨s, rfl, rfl, by simpa [truthy, bne_iff_ne] using ht⟩
      · rintro ⟨s1, rfl, rfl, hne⟩
        refine ⟨rfl, ?_⟩
        simp [truthy, bne_iff_ne]
        exact hne
  · rw [show m.dict = filterTruthy (baseDict m) from rfl, mem_filterTruthy_iff]
    cases hm : m.genre with
    | none =>
      simp [baseDict, JObj.toList, hm, truthy, optJson]
      rintro rfl
      rfl
    | some s =>
      simp [baseDict, JObj.toList, hm, optJson]
      constructor
      · rintro ⟨rfl, ht⟩
        exact ⟨s, rfl, rfl, by simpa [truthy, bne_iff_ne] using ht⟩
      · rintro ⟨s1, rfl, rfl, hne⟩
        refine ⟨rfl, ?_⟩
        simp [truthy, bne_iff_ne]
        exact hne
  · rw [show m.dict = filterTruthy (baseDict m) from rfl, mem_filterTruthy_iff]
    cases hm : m.year with
    | none =>
      simp [baseDict, JObj.toList, hm, truthy, optJson]
      rintro rfl
      rfl
    | some s =>
      simp [baseDict, JObj.toList, hm, optJson]
      constructor
      · rintro ⟨rfl, ht⟩
        exact ⟨s, rfl, rfl, by simpa [truthy, bne_iff_ne] using ht⟩
      · rintro ⟨s1, rfl, rfl, hne⟩
        refine ⟨rfl, ?_⟩
        simp [truthy, bne_iff_ne]
        exact hne
  · rw [show m.dict = filterTruthy (baseDict m) from rfl, mem_filterTruthy_iff]
    cases hm : m.composer with
    | none =>
      simp [baseDict, JObj.toList, hm, truthy, optJson]
      rintro rfl
      rfl
    | some s =>
      simp [baseDict, JObj.toList, hm, optJson]
      constructor
      · rintro ⟨rfl, ht⟩
        exact ⟨s, rfl, rfl, by simpa [truthy, bne_iff_ne] using ht⟩
      · rintro ⟨s1, rfl, rfl, hne⟩
        refine ⟨rfl, ?_⟩
        simp [truthy, bne_iff_ne]
        exact hne
  · rw [show m.dict = filterTruthy (baseDict m) from rfl, mem_filterTruthy_iff]
    simp [baseDict, JObj.toList]
    rintro rfl
    exact truthy_strPairs m.extras
